import Mathlib

/-!
Verification of the Kubernetes HTTP-body stream adaptor
(`src/kubernetes/stream.rs`, function `body`).

The adaptor pulls byte chunks from an HTTP body, feeds each chunk to a
`MultiResponseDecoder`, and re-exposes the decoder's ordered parse outcomes
as a lazy sequence of `Result<T, Error<ReadError>>`, with
- read failures wrapped as `Error::Reading` and terminating the sequence,
- parse failures wrapped as `Error::Parsing` and terminating the sequence,
- one exception: a `ResponseError::Json(e)` with `e.is_data()` is treated
  as a silent end-of-stream (the Kubernetes null-sentinel defect workaround),
- a finalization (residue) check when the body is exhausted, surfacing
  leftover bytes as `Error::UnparsedDataUponCompletion`.

Embedding choices:
- Bytes are modelled as natural numbers, a chunk as `List Nat`.
- The asynchronous pull-based body is a finite list of
  `Except ReadError Chunk` pulls; list end models body exhaustion.
- The decoder is an external collaborator (its Rust source is not part of
  the files under verification); the adaptor is embedded generically over
  any decoder state machine, and a concrete decoder modelled from the
  specification is provided for the concrete test scenarios.
- The `try_stream!` generator is embedded twice, and both embeddings are
  read off the same Rust control flow:
  * `bodyRun`: the whole produced sequence as a list, together with the
    trace of chunks fed to the decoder, the emitted `ChunkProcessed`
    events and the number of `decoder.finish()` calls;
  * `step` on `GenState`: the generator as an explicit step machine with
    an absorbing `finished` state, for the absorbing/termination claims.
-/

namespace stream

/-- One byte, modelled as a natural number (the source works on `u8` data;
values are only ever compared for equality here). -/
abbrev Byte := Nat

/-- A chunk of the HTTP body: an immutable ordered sequence of bytes. -/
abbrev Chunk := List Byte

/-- Category of a `serde_json::Error`, mirroring `serde_json::error::Category`
(`Io`, `Syntax`, `Data`, `Eof`). -/
inductive JsonCategory : Type where
  | ioCat
  | synCat
  | dataCat
  | eofCat
deriving DecidableEq, Repr

/-- A `serde_json::Error`, reduced to the only observable the adaptor
inspects: its category. -/
structure JsonError : Type where
  category : JsonCategory
deriving DecidableEq, Repr

/-- `serde_json::Error::is_data`: true exactly for the `Data` category. -/
def JsonError.is_data (e : JsonError) : Bool :=
  e.category = JsonCategory.dataCat

/-- `k8s_openapi::ResponseError`: the per-document decode error type
(`NeedMoreData`, `Json(serde_json::Error)`, `Utf8(str::Utf8Error)`). -/
inductive ResponseError : Type where
  | NeedMoreData
  | Json (error : JsonError)
  | Utf8
deriving DecidableEq, Repr

/-- `stream::Error<ReadError>`: the adaptor's terminal error type, with the
three variants of the Rust enum. -/
inductive Error (ReadError : Type) : Type where
  | Reading (source : ReadError)
  | Parsing (source : ResponseError)
  | UnparsedDataUponCompletion (data : List Byte)
deriving DecidableEq, Repr

/-- The external incremental decoder, at its interface boundary:
`process_next_chunk` advances the state and returns the ordered list of
parse outcomes recognised so far; `finish` reports leftover undecoded
bytes (`Except.error data`) or a clean end (`Except.ok ()`). -/
structure Decoder (σ T : Type) : Type where
  process_next_chunk : σ → Chunk → σ × List (Except ResponseError T)
  finish : σ → Except (List Byte) Unit

/-- The inner `for response in responses` loop of `body`: yields `Except.ok`
elements until the first failure; a `ResponseError::Json` failure whose
error `is_data` stops silently (`return`), any other failure yields a final
`Error.Parsing` element. The boolean is true when the loop ran to the end
of the list and the outer `while` continues. -/
def yieldResponses {E T : Type} :
    List (Except ResponseError T) → List (Except (Error E) T) × Bool
  | [] => ([], true)
  | Except.error re :: _ =>
    match re with
    | ResponseError.Json je =>
      if je.is_data then ([], false)
      else ([Except.error (Error.Parsing (ResponseError.Json je))], false)
    | re => ([Except.error (Error.Parsing re)], false)
  | Except.ok t :: rest =>
    let yr := yieldResponses rest
    (Except.ok t :: yr.1, yr.2)

/-- Everything observable about one run of the `try_stream!` body:
the produced sequence, the chunks fed to `decoder.process_next_chunk`,
the `ChunkProcessed { byte_size }` events emitted, and how many times
`decoder.finish()` was called. -/
structure RunResult (E T : Type) : Type where
  output : List (Except (Error E) T)
  fedChunks : List Chunk
  events : List Nat
  finishCalls : Nat

/-- The `try_stream!` body of `stream::body`, as a function from the list of
body pulls to the produced sequence (plus trace). Mirrors the Rust control
flow: read error → single `Error.Reading` element, no decoder call, no
event; successful chunk → decoder advanced, event emitted, outcomes
yielded via `yieldResponses`, looping only when no outcome terminated;
exhausted body → one `decoder.finish()` call, residue surfaced as
`Error.UnparsedDataUponCompletion`. -/
def bodyRun {σ E T : Type} (d : Decoder σ T) :
    σ → List (Except E Chunk) → RunResult E T
  | s, [] =>
    match d.finish s with
    | Except.ok _ => ⟨[], [], [], 1⟩
    | Except.error data => ⟨[Except.error (Error.UnparsedDataUponCompletion data)], [], [], 1⟩
  | _, Except.error e :: _ => ⟨[Except.error (Error.Reading e)], [], [], 0⟩
  | s, Except.ok chunk :: rest =>
    let p := d.process_next_chunk s chunk
    let yr := yieldResponses p.2
    if yr.2 then
      let r := bodyRun d p.1 rest
      ⟨yr.1 ++ r.output, chunk :: r.fedChunks, chunk.length :: r.events, r.finishCalls⟩
    else
      ⟨yr.1, [chunk], [chunk.length], 0⟩

/-- Run the decoder over a list of chunks (no read errors), returning the
final decoder state and the per-chunk outcome lists, in order. -/
def runChunks {σ T : Type} (d : Decoder σ T) : σ → List Chunk → σ × List (List (Except ResponseError T))
  | s, [] => (s, [])
  | s, c :: cs =>
    let p := d.process_next_chunk s c
    let r := runChunks d p.1 cs
    (r.1, p.2 :: r.2)

/-- Is this parse outcome a successfully decoded record? -/
def isOkOutcome {T : Type} : Except ResponseError T → Bool
  | Except.ok _ => true
  | Except.error _ => false

/-- The successfully decoded records of an outcome list, in order. -/
def okRecords {T : Type} (rs : List (Except ResponseError T)) : List T :=
  rs.filterMap fun r =>
    match r with
    | Except.ok t => some t
    | Except.error _ => none

/-- Every outcome in every per-chunk list is a successfully decoded record. -/
def allOkOutcomes {T : Type} (rss : List (List (Except ResponseError T))) : Bool :=
  rss.all fun rs => rs.all isOkOutcome

/-- The defect-workaround test the adaptor applies to a decode failure:
`Err(ResponseError::Json(e))` with `e.is_data()`. -/
def isSentinel : ResponseError → Bool
  | ResponseError.Json je => je.is_data
  | _ => false

/-- The chunks of the pull list up to (not including) the first read
error: exactly the chunks the body can deliver successfully. -/
def chunksBeforeReadError {E : Type} : List (Except E Chunk) → List Chunk
  | [] => []
  | Except.ok c :: rest => c :: chunksBeforeReadError rest
  | Except.error _ :: _ => []

/-! ## The generator as an explicit step machine

`try_stream!` compiles `body` into a pollable stream: each poll either
produces one element or reports end-of-stream, and once the generator has
returned, every later poll reports end-of-stream again (the generator's
done flag). `GenState.active s pending pulls` is the suspended generator:
decoder state `s`, parse outcomes not yet yielded from the current chunk,
and the remaining body pulls. `GenState.finished` is the returned
generator. -/

/-- State of the suspended `try_stream!` generator. -/
inductive GenState (σ E T : Type) : Type where
  | active (s : σ) (pending : List (Except ResponseError T)) (pulls : List (Except E Chunk))
  | finished

/-- One poll of the generator from inside the loop: first drain the pending
outcomes of the current chunk (silent return on the sentinel, `Parsing` on
other failures, yield on success), then pull from the body (read error →
`Reading`; chunk → feed the decoder and continue; exhausted →
`decoder.finish()` residue check). -/
def stepAux {σ E T : Type} (d : Decoder σ T) :
    σ → List (Except ResponseError T) → List (Except E Chunk) →
      Option (Except (Error E) T) × GenState σ E T
  | s, Except.ok t :: rs, pulls => (some (Except.ok t), GenState.active s rs pulls)
  | _, Except.error re :: _, _ =>
    match re with
    | ResponseError.Json je =>
      if je.is_data then (none, GenState.finished)
      else (some (Except.error (Error.Parsing (ResponseError.Json je))), GenState.finished)
    | re => (some (Except.error (Error.Parsing re)), GenState.finished)
  | s, [], [] =>
    match d.finish s with
    | Except.ok _ => (none, GenState.finished)
    | Except.error data =>
      (some (Except.error (Error.UnparsedDataUponCompletion data)), GenState.finished)
  | _, [], Except.error e :: _ => (some (Except.error (Error.Reading e)), GenState.finished)
  | s, [], Except.ok chunk :: rest =>
    let p := d.process_next_chunk s chunk
    stepAux d p.1 p.2 rest
termination_by _ _ pulls => pulls.length

/-- One poll of the generator: `none` means "no data" (end of stream);
the `finished` state is where the generator has already returned. -/
def step {σ E T : Type} (d : Decoder σ T) :
    GenState σ E T → Option (Except (Error E) T) × GenState σ E T
  | GenState.finished => (none, GenState.finished)
  | GenState.active s pending pulls => stepAux d s pending pulls

/-- Iterate the generator's state `n` polls forward. -/
def stepN {σ E T : Type} (d : Decoder σ T) : Nat → GenState σ E T → GenState σ E T
  | 0, gs => gs
  | n + 1, gs => stepN d n (step d gs).2

/-! ## A decoder modelled from the specification

`MultiResponseDecoder` (`src/kubernetes/multi_response_decoder.rs`) is not
among the files under verification; the specification describes it at its
interface: it buffers bytes across chunks, recognises complete JSON
documents, decodes each into a record or a per-document
`ResponseError`, and at end-of-input reports any leftover bytes. The
concrete decoder below follows that description on a miniature document
grammar sufficient for the specification's scenarios: the literal `null`
document (decodes to no record: a data-category JSON error), brace-balanced
object documents (decode successfully), incomplete documents (buffered),
anything else (a syntax-category JSON error). -/

/-- A decoded record of the modelled decoder: the raw bytes of its document. -/
structure SpecRecord : Type where
  raw : List Byte
deriving DecidableEq, Repr

/-- The bytes of the literal `null` document. -/
def nullBytes : List Byte := [110, 117, 108, 108]

/-- The byte of an opening brace. -/
def lbrace : Byte := 123

/-- The byte of a closing brace. -/
def rbrace : Byte := 125

/-- Modelled from the spec: index of the closing brace matching the opening
brace that starts the buffer, if the buffer contains it. -/
def braceEnd : List Byte → Nat → Nat → Option Nat
  | [], _, _ => none
  | b :: rest, depth, idx =>
    if b = lbrace then braceEnd rest (depth + 1) (idx + 1)
    else if b = rbrace then
      if depth = 1 then some idx else braceEnd rest (depth - 1) (idx + 1)
    else braceEnd rest depth (idx + 1)

/-- Result of trying to extract one document from the front of the buffer. -/
inductive ExtractStep : Type where
  | allDone
  | incomplete
  | item (outcome : Except ResponseError SpecRecord) (rest : List Byte)

/-- Modelled from the spec: recognise one document at the front of the
buffer. `null` decodes to no record shape, hence a data-category JSON
error; a balanced object decodes to a record; a proper prefix of either is
an incomplete document, kept buffered; anything else is a syntax error. -/
def specExtract (buf : List Byte) : ExtractStep :=
  if buf = [] then ExtractStep.allDone
  else if nullBytes.isPrefixOf buf then
    ExtractStep.item (Except.error (ResponseError.Json ⟨JsonCategory.dataCat⟩)) (buf.drop 4)
  else if buf.isPrefixOf nullBytes then ExtractStep.incomplete
  else if buf.head? = some lbrace then
    match braceEnd buf 0 0 with
    | some idx => ExtractStep.item (Except.ok ⟨buf.take (idx + 1)⟩) (buf.drop (idx + 1))
    | none => ExtractStep.incomplete
  else ExtractStep.item (Except.error (ResponseError.Json ⟨JsonCategory.synCat⟩)) []

/-- Modelled from the spec: extract documents from the buffer until it is
empty or holds only an incomplete document; fuelled by the buffer length. -/
def specProcessAux : Nat → List Byte → List (Except ResponseError SpecRecord) × List Byte
  | 0, buf => ([], buf)
  | fuel + 1, buf =>
    match specExtract buf with
    | ExtractStep.allDone => ([], [])
    | ExtractStep.incomplete => ([], buf)
    | ExtractStep.item outcome rest =>
      let r := specProcessAux fuel rest
      (outcome :: r.1, r.2)

/-- Modelled from the spec: the incremental multi-document decoder. Its
state is the buffered bytes; `process_next_chunk` appends the chunk and
extracts all complete documents; `finish` reports the buffered bytes as
residue when nonempty. -/
def specDecoder : Decoder (List Byte) SpecRecord where
  process_next_chunk := fun s c =>
    let whole := s ++ c
    let r := specProcessAux (whole.length + 1) whole
    (r.2, r.1)
  finish := fun s => if s = [] then Except.ok () else Except.error s

/-- The `Except.ok`-wrapped records of a list of per-chunk outcome lists,
flattened in order: what the adaptor yields for them when no outcome is a
failure. -/
def okElements {E T : Type} (rss : List (List (Except ResponseError T))) :
    List (Except (Error E) T) :=
  ((rss.map okRecords).flatten).map Except.ok

/-! ## Helper lemmas -/

theorem yieldResponses_allOk {E T : Type} :
    ∀ rs : List (Except ResponseError T), rs.all isOkOutcome = true →
      yieldResponses (E := E) rs = ((okRecords rs).map Except.ok, true) := by
  intro rs
  induction rs with
  | nil => intro _; simp [yieldResponses, okRecords]
  | cons r rest ih =>
    intro h
    rw [List.all_cons, Bool.and_eq_true] at h
    cases r with
    | error re => simp [isOkOutcome] at h
    | ok t =>
      simp only [yieldResponses, ih h.2, okRecords, List.filterMap_cons]
      simp [okRecords]

theorem yieldResponses_sentinel {E T : Type} (je : JsonError) (h : je.is_data = true) :
    ∀ (pre : List T) (post : List (Except ResponseError T)),
      yieldResponses (E := E) (pre.map Except.ok ++ Except.error (ResponseError.Json je) :: post)
        = (pre.map Except.ok, false) := by
  intro pre post
  induction pre with
  | nil => simp [yieldResponses, h]
  | cons t pre ih => simp [yieldResponses, ih]

theorem yieldResponses_failure {E T : Type} (e : ResponseError) (h : isSentinel e = false) :
    ∀ (pre : List T) (post : List (Except ResponseError T)),
      yieldResponses (E := E) (pre.map Except.ok ++ Except.error e :: post)
        = (pre.map Except.ok ++ [Except.error (Error.Parsing e)], false) := by
  intro pre post
  induction pre with
  | nil =>
    cases e with
    | Json je =>
      simp only [isSentinel] at h
      simp [yieldResponses, h]
    | NeedMoreData => simp [yieldResponses]
    | Utf8 => simp [yieldResponses]
  | cons t pre ih => simp [yieldResponses, ih]

theorem bodyRun_okChunks {σ E T : Type} (d : Decoder σ T) :
    ∀ (chunks : List Chunk) (s : σ) (tail : List (Except E Chunk)),
      allOkOutcomes (runChunks d s chunks).2 = true →
      bodyRun d s (chunks.map Except.ok ++ tail) =
        ⟨okElements (runChunks d s chunks).2 ++ (bodyRun d (runChunks d s chunks).1 tail).output,
         chunks ++ (bodyRun d (runChunks d s chunks).1 tail).fedChunks,
         chunks.map List.length ++ (bodyRun d (runChunks d s chunks).1 tail).events,
         (bodyRun d (runChunks d s chunks).1 tail).finishCalls⟩ := by
  intro chunks
  induction chunks with
  | nil =>
    intro s tail _
    simp [runChunks, okElements, okRecords]
  | cons c cs ih =>
    intro s tail h
    simp only [runChunks, List.all_cons, allOkOutcomes, Bool.and_eq_true] at h
    obtain ⟨h1, h2⟩ := h
    have hall : allOkOutcomes (runChunks d (d.process_next_chunk s c).1 cs).2 = true := by
      simpa [allOkOutcomes] using h2
    have hrec := ih (d.process_next_chunk s c).1 tail hall
    simp only [List.map_cons, List.cons_append, bodyRun]
    rw [yieldResponses_allOk (E := E) _ h1]
    simp only [if_pos, runChunks]
    simp [hrec, okElements, List.append_assoc, Function.comp]

theorem stepAux_shape {σ E T : Type} (d : Decoder σ T) :
    ∀ (pulls : List (Except E Chunk)) (s : σ) (rs : List (Except ResponseError T)),
      (stepAux d s rs pulls).2 = GenState.finished ∨
      ∃ t s2 rs2 pulls2,
        stepAux d s rs pulls = (some (Except.ok t), GenState.active s2 rs2 pulls2) ∧
        (pulls2.length < pulls.length ∨ (pulls2 = pulls ∧ rs = Except.ok t :: rs2)) := by
  intro pulls
  induction pulls with
  | nil =>
    intro s rs
    cases rs with
    | nil =>
      left
      simp only [stepAux]
      cases d.finish s <;> simp
    | cons r rs =>
      cases r with
      | ok t =>
        right
        exact ⟨t, s, rs, [], by simp [stepAux], Or.inr ⟨rfl, rfl⟩⟩
      | error re =>
        left
        cases re with
        | Json je => by_cases hj : je.is_data <;> simp [stepAux, hj]
        | NeedMoreData => simp [stepAux]
        | Utf8 => simp [stepAux]
  | cons pull rest ih =>
    intro s rs
    cases rs with
    | cons r rs =>
      cases r with
      | ok t =>
        right
        exact ⟨t, s, rs, pull :: rest, by simp [stepAux], Or.inr ⟨rfl, rfl⟩⟩
      | error re =>
        left
        cases re with
        | Json je => by_cases hj : je.is_data <;> simp [stepAux, hj]
        | NeedMoreData => simp [stepAux]
        | Utf8 => simp [stepAux]
    | nil =>
      cases pull with
      | error e => left; simp [stepAux]
      | ok chunk =>
        have hunfold : stepAux d s ([] : List (Except ResponseError T)) (Except.ok chunk :: rest)
            = stepAux d (d.process_next_chunk s chunk).1 (d.process_next_chunk s chunk).2 rest := by
          simp [stepAux]
        rcases ih (d.process_next_chunk s chunk).1 (d.process_next_chunk s chunk).2 with
          hfin | ⟨t, s2, rs2, pulls2, heq, hcase⟩
        · left
          rw [hunfold]
          exact hfin
        · right
          refine ⟨t, s2, rs2, pulls2, by rw [hunfold]; exact heq, Or.inl ?_⟩

          rcases hcase with hlt | ⟨hp, _⟩
          · exact Nat.lt_trans hlt (Nat.lt_succ_self _)
          · rw [hp]
            exact Nat.lt_succ_self _

theorem stepN_finished {σ E T : Type} (d : Decoder σ T) :
    ∀ n, stepN (E := E) (T := T) d n GenState.finished = GenState.finished := by
  intro n
  induction n with
  | zero => rfl
  | succ n ih => simpa [stepN, step] using ih

theorem step_terminal_finished {σ E T : Type} (d : Decoder σ T)
    (gs : GenState σ E T) (x : Option (Except (Error E) T)) (gs' : GenState σ E T)
    (hstep : step d gs = (x, gs'))
    (hx : x = none ∨ ∃ e, x = some (Except.error e)) : gs' = GenState.finished := by
  cases gs with
  | finished =>
    simp only [step] at hstep
    exact (Prod.mk.injEq _ _ _ _ ▸ hstep).2.symm ▸ rfl
  | active s rs pulls =>
    simp only [step] at hstep
    rcases stepAux_shape d pulls s rs with hfin | ⟨t, s2, rs2, pulls2, heq, _⟩
    · rw [hstep] at hfin
      exact hfin
    · rw [heq] at hstep
      have hxok : x = some (Except.ok t) := by
        cases hstep
        rfl
      rcases hx with h | ⟨e, h⟩ <;> simp [hxok] at h

theorem reaches_finished_aux {σ E T : Type} (d : Decoder σ T) :
    ∀ (a : Nat) (pulls : List (Except E Chunk)) (s : σ) (rs : List (Except ResponseError T)),
      pulls.length < a →
      ∃ n, stepN d n (GenState.active s rs pulls) = GenState.finished := by
  intro a
  induction a with
  | zero =>
    intro pulls s rs h
    exact absurd h (Nat.not_lt_zero _)
  | succ a iha =>
    intro pulls
    suffices H : ∀ (b : Nat) (s : σ) (rs : List (Except ResponseError T)),
        rs.length < b → pulls.length < a + 1 →
        ∃ n, stepN d n (GenState.active s rs pulls) = GenState.finished by
      intro s rs h
      exact H (rs.length + 1) s rs (Nat.lt_succ_self _) h
    intro b
    induction b with
    | zero =>
      intro s rs h _
      exact absurd h (Nat.not_lt_zero _)
    | succ b ihb =>
      intro s rs hrs hpulls
      rcases stepAux_shape d pulls s rs with hfin | ⟨t, s2, rs2, pulls2, heq, hcase⟩
      · refine ⟨1, ?_⟩
        simp [stepN, step, hfin]
      · rcases hcase with hlt | ⟨hp, hrseq⟩
        · obtain ⟨n, hn⟩ := iha pulls2 s2 rs2 (by omega)
          refine ⟨n + 1, ?_⟩
          simp [stepN, step, heq, hn]
        · have hrs2 : rs2.length < b := by
            rw [hrseq] at hrs
            simp only [List.length_cons] at hrs
            omega
          obtain ⟨n, hn⟩ := ihb s2 rs2 hrs2 hpulls
          refine ⟨n + 1, ?_⟩
          rw [hp] at heq
          simp [stepN, step, heq, hn]

/-! ## The claims -/

/-- Claim C1: a decode failure of the "malformed/incomplete value" class
(`ResponseError::Json` with `is_data`, the null-sentinel defect) terminates
the sequence immediately and cleanly: the output holds only the records
yielded before it (no error element, nothing after), and `decoder.finish()`
is never called; in particular the input chunk sequence `["null"]` produces
zero elements and no residue check. -/
theorem null_sentinel_silent_end :
    (∀ (σ E T : Type) (d : Decoder σ T) (s : σ) (c : Chunk)
        (rest : List (Except E Chunk)) (pre : List T) (je : JsonError)
        (post : List (Except ResponseError T)),
        (d.process_next_chunk s c).2 =
          pre.map Except.ok ++ Except.error (ResponseError.Json je) :: post →
        je.is_data = true →
        (bodyRun d s (Except.ok c :: rest)).output = pre.map Except.ok ∧
        (bodyRun d s (Except.ok c :: rest)).finishCalls = 0) ∧
    (bodyRun (E := Nat) specDecoder [] [Except.ok nullBytes]).output = [] ∧
    (bodyRun (E := Nat) specDecoder [] [Except.ok nullBytes]).finishCalls = 0 := by
  refine ⟨?_, rfl, rfl⟩
  intro σ E T d s c rest pre je post hproc hdata
  simp [bodyRun, hproc, yieldResponses_sentinel je hdata]

/-- Witness for C1: the chunk `"{}null"` yields the record for `"{}"` and
then ends silently without a finalization call. -/
theorem null_sentinel_silent_end_w :
    (bodyRun (E := Nat) specDecoder [] [Except.ok ([123, 125] ++ nullBytes)]).output =
      [Except.ok ⟨[123, 125]⟩] ∧
    (bodyRun (E := Nat) specDecoder [] [Except.ok ([123, 125] ++ nullBytes)]).finishCalls = 0 :=
  null_sentinel_silent_end.1 (List Byte) Nat SpecRecord specDecoder []
    ([123, 125] ++ nullBytes) [] [⟨[123, 125]⟩] ⟨JsonCategory.dataCat⟩ [] rfl rfl

/-- Claim C2: if the byte source fails on its k-th pull, the output is
exactly the records decodable from the first k−1 chunks (all of whose
outcomes are assumed to decode), followed by exactly one final
`Error.Reading` element wrapping the read error, and the sequence ends;
`decoder.finish()` is not called on this path. -/
theorem read_error_propagation :
    ∀ (σ E T : Type) (d : Decoder σ T) (s : σ) (chunks : List Chunk) (e : E)
      (rest : List (Except E Chunk)),
      allOkOutcomes (runChunks d s chunks).2 = true →
      bodyRun d s (chunks.map Except.ok ++ Except.error e :: rest) =
        ⟨okElements (runChunks d s chunks).2 ++ [Except.error (Error.Reading e)],
         chunks, chunks.map List.length, 0⟩ := by
  intro σ E T d s chunks e rest h
  rw [bodyRun_okChunks d chunks s (Except.error e :: rest) h]
  simp [bodyRun]

/-- Witness for C2: one decodable chunk `"{}"` then a failing pull yields
the record and a single `Reading` error, with no finalization. -/
theorem read_error_propagation_w :
    bodyRun specDecoder [] (([[123, 125]] : List Chunk).map Except.ok ++ Except.error 7 :: []) =
      ⟨okElements (runChunks specDecoder [] [[123, 125]]).2 ++ [Except.error (Error.Reading 7)],
       [[123, 125]], [[123, 125]].map List.length, 0⟩ :=
  read_error_propagation (List Byte) Nat SpecRecord specDecoder [] [[123, 125]] 7 [] rfl

/-- Claim C3: when the byte source is exhausted normally and no earlier
termination occurred, `decoder.finish()` is called exactly once; residue
bytes end the sequence with one `Error.UnparsedDataUponCompletion` element
carrying exactly those bytes, otherwise the sequence ends cleanly; in
particular the input `["{"]` yields `UnparsedDataUponCompletion` with the
single opening-brace byte. -/
theorem residue_finalization :
    (∀ (σ E T : Type) (d : Decoder σ T) (s : σ) (chunks : List Chunk),
        allOkOutcomes (runChunks d s chunks).2 = true →
        (bodyRun (E := E) d s (chunks.map Except.ok)).finishCalls = 1 ∧
        (bodyRun (E := E) d s (chunks.map Except.ok)).output =
          okElements (runChunks d s chunks).2 ++
            (match d.finish (runChunks d s chunks).1 with
             | Except.ok _ => []
             | Except.error data => [Except.error (Error.UnparsedDataUponCompletion data)])) ∧
    (bodyRun (E := Nat) specDecoder [] [Except.ok [lbrace]]).output =
      [Except.error (Error.UnparsedDataUponCompletion [lbrace])] ∧
    (bodyRun (E := Nat) specDecoder [] [Except.ok [lbrace]]).finishCalls = 1 := by
  refine ⟨?_, rfl, rfl⟩
  intro σ E T d s chunks h
  have hrun := bodyRun_okChunks d chunks s ([] : List (Except E Chunk)) h
  rw [List.append_nil] at hrun
  rw [hrun]
  cases hfin : d.finish (runChunks d s chunks).1 <;> simp [bodyRun, hfin]

/-- Witness for C3: the single chunk `"{"` leaves residue, `finish` is
called once and the residue byte is carried in the terminal error. -/
theorem residue_finalization_w :
    (bodyRun (E := Nat) specDecoder [] (([[lbrace]] : List Chunk).map Except.ok)).finishCalls = 1 ∧
    (bodyRun (E := Nat) specDecoder [] (([[lbrace]] : List Chunk).map Except.ok)).output =
      okElements (runChunks specDecoder [] [[lbrace]]).2 ++
        (match specDecoder.finish (runChunks specDecoder [] [[lbrace]]).1 with
         | Except.ok _ => []
         | Except.error data => [Except.error (Error.UnparsedDataUponCompletion data)]) :=
  residue_finalization.1 (List Byte) Nat SpecRecord specDecoder [] [[lbrace]] rfl

/-- Claim C4: a `DocumentParseFailure` that is not of the defect-workaround
class is wrapped as `Error.Parsing` and yielded as the final element of the
sequence, after the records that preceded it in the chunk; the sequence
then ends without a finalization call. -/
theorem parse_error_propagation :
    ∀ (σ E T : Type) (d : Decoder σ T) (s : σ) (c : Chunk)
      (rest : List (Except E Chunk)) (pre : List T) (e : ResponseError)
      (post : List (Except ResponseError T)),
      (d.process_next_chunk s c).2 = pre.map Except.ok ++ Except.error e :: post →
      isSentinel e = false →
      bodyRun d s (Except.ok c :: rest) =
        ⟨pre.map Except.ok ++ [Except.error (Error.Parsing e)], [c], [c.length], 0⟩ := by
  intro σ E T d s c rest pre e post hproc hsent
  simp [bodyRun, hproc, yieldResponses_failure e hsent]

/-- Witness for C4: the syntactically invalid chunk `"not"` yields a single
terminal `Parsing` error. -/
theorem parse_error_propagation_w :
    bodyRun (E := Nat) specDecoder [] [Except.ok [110, 111, 116]] =
      ⟨([] : List SpecRecord).map Except.ok ++
         [Except.error (Error.Parsing (ResponseError.Json ⟨JsonCategory.synCat⟩))],
       [[110, 111, 116]], [([110, 111, 116] : Chunk).length], 0⟩ :=
  parse_error_propagation (List Byte) Nat SpecRecord specDecoder [] [110, 111, 116] []
    [] (ResponseError.Json ⟨JsonCategory.synCat⟩) [] rfl rfl

/-- Claim C5: absent errors (every outcome decodes and the final residue
check is clean), the output is exactly the `Except.ok`-wrapped records of
the per-chunk outcome lists, flattened in order: records are yielded in the
same relative order as their documents appeared in the byte stream, both
across chunks and within a single chunk. -/
theorem order_preservation :
    ∀ (σ E T : Type) (d : Decoder σ T) (s : σ) (chunks : List Chunk),
      allOkOutcomes (runChunks d s chunks).2 = true →
      d.finish (runChunks d s chunks).1 = Except.ok () →
      (bodyRun (E := E) d s (chunks.map Except.ok)).output =
        okElements (runChunks d s chunks).2 := by
  intro σ E T d s chunks h hfin
  have hrun := bodyRun_okChunks d chunks s ([] : List (Except E Chunk)) h
  rw [List.append_nil] at hrun
  rw [hrun]
  simp [bodyRun, hfin]

/-- Witness for C5: the document `"{}"` split across the chunks `"{"` and
`"}"` yields its record, in order, with a clean end. -/
theorem order_preservation_w :
    (bodyRun (E := Nat) specDecoder [] (([[123], [125]] : List Chunk).map Except.ok)).output =
      okElements (runChunks specDecoder [] [[123], [125]]).2 :=
  order_preservation (List Byte) Nat SpecRecord specDecoder [] [[123], [125]] rfl rfl

/-- Claim C6: all terminal states are absorbing: once a poll of the
generator returns "no data" (clean completion, including the sentinel
workaround) or a `StreamError` element (the last element the generator can
produce before returning), the generator is in the `finished` state, and
every further poll, after any number of further polls, returns "no data" —
nothing is produced again and no element is repeated. -/
theorem terminal_absorbing :
    ∀ (σ E T : Type) (d : Decoder σ T) (gs : GenState σ E T)
      (x : Option (Except (Error E) T)) (gs' : GenState σ E T),
      step d gs = (x, gs') →
      (x = none ∨ ∃ e, x = some (Except.error e)) →
      ∀ n, step d (stepN d n gs') = (none, GenState.finished) := by
  intro σ E T d gs x gs' hstep hx n
  have hfin := step_terminal_finished d gs x gs' hstep hx
  rw [hfin, stepN_finished]
  rfl

/-- Witness for C6: after the poll that surfaces a read error, three more
polls later the generator still reports "no data". -/
theorem terminal_absorbing_w :
    step specDecoder (stepN specDecoder 3 (GenState.finished (σ := List Byte) (E := Nat) (T := SpecRecord)))
      = (none, GenState.finished) :=
  terminal_absorbing (List Byte) Nat SpecRecord specDecoder
    (GenState.active [] [] [Except.error 7])
    (some (Except.error (Error.Reading 7))) GenState.finished
    (by simp [step, stepAux]) (Or.inr ⟨Error.Reading 7, rfl⟩) 3

/-- Claim C7: for every finite byte source the generator terminates: from
any reachable state (decoder state, pending outcomes, remaining pulls)
some finite number of polls reaches the `finished` state, so the output
sequence is finite; every element it produces is of type
`Except (Error E) T`, i.e. `Ok(Record)` or `Err(StreamError)`. -/
theorem body_terminates :
    ∀ (σ E T : Type) (d : Decoder σ T) (s : σ)
      (pending : List (Except ResponseError T)) (pulls : List (Except E Chunk)),
      ∃ n, stepN d n (GenState.active s pending pulls) = GenState.finished := by
  intro σ E T d s pending pulls
  exact reaches_finished_aux d (pulls.length + 1) pulls s pending (Nat.lt_succ_self _)

/-- Claim C8: the silent-termination path is triggered precisely by a
decode failure that is a JSON error of the data category
(`ResponseError::Json` with `error.is_data()`); every other decode
failure — JSON syntax, EOF or IO category errors, and the non-JSON
variants `NeedMoreData` and `Utf8` — is surfaced as `Error.Parsing`
instead of silently ending the stream. -/
theorem sentinel_classification :
    (∀ e : ResponseError,
        isSentinel e = true ↔ ∃ je, e = ResponseError.Json je ∧ je.is_data = true) ∧
    (∀ (σ E T : Type) (d : Decoder σ T) (s : σ) (e : ResponseError) (c : Chunk)
        (rest : List (Except E Chunk)),
        (d.process_next_chunk s c).2 = [Except.error e] →
        (bodyRun d s (Except.ok c :: rest)).output =
          (if isSentinel e then [] else [Except.error (Error.Parsing e)]) ∧
        (bodyRun d s (Except.ok c :: rest)).finishCalls = 0) := by
  constructor
  · intro e
    cases e with
    | Json je =>
      simp only [isSentinel]
      constructor
      · intro h
        exact ⟨je, rfl, h⟩
      · rintro ⟨je', heq, h⟩
        cases heq
        exact h
    | NeedMoreData => simp [isSentinel]
    | Utf8 => simp [isSentinel]
  · intro σ E T d s e c rest hproc
    by_cases hs : isSentinel e = true
    · obtain ⟨je, rfl, hdata⟩ : ∃ je, e = ResponseError.Json je ∧ je.is_data = true := by
        cases e with
        | Json je => exact ⟨je, rfl, by simpa [isSentinel] using hs⟩
        | NeedMoreData => simp [isSentinel] at hs
        | Utf8 => simp [isSentinel] at hs
      have h0 := yieldResponses_sentinel (E := E) (T := T) je hdata [] []
      simp only [List.map_nil, List.nil_append] at h0
      simp [bodyRun, hproc, h0, hs]
    · have hs' : isSentinel e = false := by simpa using hs
      have h0 := yieldResponses_failure (E := E) (T := T) e hs' [] []
      simp only [List.map_nil, List.nil_append] at h0
      simp [bodyRun, hproc, h0, hs']

/-- Witness for C8: the lone `null` document is the data-category JSON
failure, takes the silent branch and produces no output element. -/
theorem sentinel_classification_w :
    (bodyRun (E := Nat) specDecoder [] [Except.ok nullBytes]).output =
      (if isSentinel (ResponseError.Json ⟨JsonCategory.dataCat⟩) then []
       else [Except.error (Error.Parsing (ResponseError.Json ⟨JsonCategory.dataCat⟩))]) ∧
    (bodyRun (E := Nat) specDecoder [] [Except.ok nullBytes]).finishCalls = 0 :=
  sentinel_classification.2 (List Byte) Nat SpecRecord specDecoder []
    (ResponseError.Json ⟨JsonCategory.dataCat⟩) nullBytes [] rfl

/-- Claim C9: when a chunk's outcome list holds successfully decoded
records followed by a sentinel-class (data-category) failure, the adaptor
yields `Ok` for each preceding record before terminating silently — also
when earlier chunks already produced records, so the workaround applies at
any document position in the stream. -/
theorem sentinel_mid_stream :
    ∀ (σ E T : Type) (d : Decoder σ T) (s : σ) (chunks : List Chunk) (c : Chunk)
      (rest : List (Except E Chunk)) (pre : List T) (je : JsonError)
      (post : List (Except ResponseError T)),
      allOkOutcomes (runChunks d s chunks).2 = true →
      (d.process_next_chunk (runChunks d s chunks).1 c).2 =
        pre.map Except.ok ++ Except.error (ResponseError.Json je) :: post →
      je.is_data = true →
      (bodyRun d s (chunks.map Except.ok ++ Except.ok c :: rest)).output =
        okElements (runChunks d s chunks).2 ++ pre.map Except.ok ∧
      (bodyRun d s (chunks.map Except.ok ++ Except.ok c :: rest)).finishCalls = 0 := by
  intro σ E T d s chunks c rest pre je post hall hproc hdata
  rw [bodyRun_okChunks d chunks s (Except.ok c :: rest) hall]
  simp [bodyRun, hproc, yieldResponses_sentinel je hdata]

/-- Witness for C9: the chunks `"{}"` then `"{}null"` yield two records
(one from each chunk) and then end silently with no finalization. -/
theorem sentinel_mid_stream_w :
    (bodyRun (E := Nat) specDecoder []
        (([[123, 125]] : List Chunk).map Except.ok ++
          Except.ok ([123, 125] ++ nullBytes) :: [])).output =
      okElements (runChunks specDecoder [] [[123, 125]]).2 ++
        [⟨[123, 125]⟩].map (Except.ok (ε := Error Nat) (α := SpecRecord)) ∧
    (bodyRun (E := Nat) specDecoder []
        (([[123, 125]] : List Chunk).map Except.ok ++
          Except.ok ([123, 125] ++ nullBytes) :: [])).finishCalls = 0 :=
  sentinel_mid_stream (List Byte) Nat SpecRecord specDecoder [] [[123, 125]]
    ([123, 125] ++ nullBytes) [] [⟨[123, 125]⟩] ⟨JsonCategory.dataCat⟩ [] rfl rfl rfl

/-- Claim C10: a failed pull is never fed to the decoder and emits no
per-chunk observability event: the chunks fed to `process_next_chunk` are
a prefix of the successfully read chunks (those before the first read
error), and the `ChunkProcessed` events are exactly one per fed chunk,
carrying its byte length. -/
theorem read_error_not_fed :
    ∀ (σ E T : Type) (d : Decoder σ T) (s : σ) (pulls : List (Except E Chunk)),
      List.IsPrefix (bodyRun d s pulls).fedChunks (chunksBeforeReadError pulls) ∧
      (bodyRun d s pulls).events = (bodyRun d s pulls).fedChunks.map List.length := by
  intro σ E T d s pulls
  induction pulls generalizing s with
  | nil =>
    cases hfin : d.finish s <;>
      simp [bodyRun, hfin, chunksBeforeReadError, List.IsPrefix]
  | cons pull rest ih =>
    cases pull with
    | error e =>
      refine ⟨⟨chunksBeforeReadError (Except.error e :: rest), ?_⟩, ?_⟩ <;>
        simp [bodyRun, chunksBeforeReadError]
    | ok c =>
      cases hcont : (yieldResponses (E := E) (d.process_next_chunk s c).2).2 with
      | true =>
        obtain ⟨⟨t, ht⟩, hev⟩ := ih (d.process_next_chunk s c).1
        refine ⟨⟨t, ?_⟩, ?_⟩ <;>
          simp [bodyRun, hcont, chunksBeforeReadError, ht, hev]
      | false =>
        refine ⟨⟨chunksBeforeReadError rest, ?_⟩, ?_⟩ <;>
          simp [bodyRun, hcont, chunksBeforeReadError]

end stream
